import Mathlib

/-!
# Material records (`src/material.cpp`)

A shallow embedding of `material_type` (its constructor, `load`, `check` and the query
accessors) together with the properties of the material registry that follow from it.

Conventions of the embedding.

* `int` is `Int`: no arithmetic in this file can overflow an `int`, and a number of the input
  is taken to fit the type it is read at. `size_t` is a natural number below `2 ^ 64` and its
  subtraction wraps modulo `2 ^ 64`.
* `std::string`, `itype_id`, `material_id` and `vitamin_id` are `String`; strings hold no NUL
  character, so that `c_str()` and a `%s` of a format keep them whole.
* A fixed-size C array of length `n` is a function `Fin n → α`; a read at a computed index
  goes through `array_read`, which is `none` when the index leaves the array.
* A function that can throw returns `Except JsonError _`; the partially updated object of a
  throwing `load` is dropped.
* The localisation lookup `_( ... )` is a parameter `translate : String → String`, the item
  registry query `item::type_is_defined` a parameter `type_is_defined : String → Bool`, and
  `MAX_FIELD_DENSITY` a parameter `N : Nat`.
-/

namespace Material

/-! ## The structured-data parser -/

/-- Modelled from the spec: the structured data handed to `load` (`json.h` is not among the
sources). A value is a literal, an array or an object; numbers are integer literals and an
object lists its members, whose names are distinct. -/
inductive JsonValue where
  | null : JsonValue
  | bool (b : Bool) : JsonValue
  | number (n : Int) : JsonValue
  | string (s : String) : JsonValue
  | array (elements : List JsonValue) : JsonValue
  | object (members : List (String × JsonValue)) : JsonValue

/-- Modelled from the spec: the errors the parser and the mandatory-field helper raise. -/
inductive JsonError where
  | missing_mandatory (name : String) : JsonError
  | bad_index (index : Nat) : JsonError
  | wrong_type (expected : String) : JsonError
  deriving DecidableEq, Repr

/-- Modelled from the spec: `JsonObject`, the record-like object with typed field accessors,
as the list of its members. -/
abbrev JsonObject := List (String × JsonValue)

/-- Modelled from the spec: `JsonArray`, an array being iterated, as the elements not consumed
yet. -/
abbrev JsonArray := List JsonValue

/-- Modelled from the spec: the value stored under a member name, if the object has that
member. -/
def JsonObject.get_member (jo : JsonObject) (name : String) : Option JsonValue :=
  jo.lookup name

/-- Modelled from the spec: `JsonObject::read` into an `int`; it reports whether a number was
there to read. -/
def JsonObject.read_int (jo : JsonObject) (name : String) : Option Int :=
  match jo.get_member name with
  | some (JsonValue.number n) => some n
  | _ => none

/-- Modelled from the spec: `JsonObject::read` into a `bool`. -/
def JsonObject.read_bool (jo : JsonObject) (name : String) : Option Bool :=
  match jo.get_member name with
  | some (JsonValue.bool b) => some b
  | _ => none

/-- Modelled from the spec: `JsonObject::read` into a string. -/
def JsonObject.read_string (jo : JsonObject) (name : String) : Option String :=
  match jo.get_member name with
  | some (JsonValue.string s) => some s
  | _ => none

/-- Modelled from the spec: `translated_string_reader`, which reads a string member and passes
it through the localisation lookup. -/
def translated_string_reader (translate : String → String) (jo : JsonObject) (name : String) :
    Option String :=
  (jo.read_string name).map translate

/-- Modelled from the spec: `JsonObject::get_array`; an absent member is the empty array (the
array may be omitted), a member that is not an array is an error. -/
def JsonObject.get_array (jo : JsonObject) (name : String) : Except JsonError JsonArray :=
  match jo.get_member name with
  | none => Except.ok []
  | some (JsonValue.array xs) => Except.ok xs
  | some _ => Except.error (JsonError.wrong_type "array")

/-- Modelled from the spec: `JsonArray::has_more`, whether an element is left. -/
def JsonArray.has_more (arr : JsonArray) : Bool :=
  !arr.isEmpty

/-- Modelled from the spec: `JsonIn::get_string`; a value that is not a string is an error. -/
def JsonValue.get_string : JsonValue → Except JsonError String
  | JsonValue.string s => Except.ok s
  | _ => Except.error (JsonError.wrong_type "string")

/-- Modelled from the spec: `JsonIn::get_float`; the number is kept as the literal. -/
def JsonValue.get_float : JsonValue → Except JsonError Int
  | JsonValue.number q => Except.ok q
  | _ => Except.error (JsonError.wrong_type "number")

/-- Modelled from the spec: `JsonIn::get_array`. -/
def JsonValue.get_array : JsonValue → Except JsonError JsonArray
  | JsonValue.array xs => Except.ok xs
  | _ => Except.error (JsonError.wrong_type "array")

/-- Modelled from the spec: `JsonIn::get_object`. -/
def JsonValue.get_object : JsonValue → Except JsonError JsonObject
  | JsonValue.object ms => Except.ok ms
  | _ => Except.error (JsonError.wrong_type "object")

/-- Modelled from the spec: `JsonArray::next_string`; fails when no element is left or the
element is not a string, otherwise yields the string and the advanced array. -/
def JsonArray.next_string (arr : JsonArray) : Except JsonError (String × JsonArray) :=
  match arr with
  | [] => Except.error (JsonError.bad_index 0)
  | x :: rest => x.get_string.map (fun s => (s, rest))

/-- Modelled from the spec: `JsonArray::next_array`. -/
def JsonArray.next_array (arr : JsonArray) : Except JsonError (JsonArray × JsonArray) :=
  match arr with
  | [] => Except.error (JsonError.bad_index 0)
  | x :: rest => x.get_array.map (fun xs => (xs, rest))

/-- Modelled from the spec: `JsonArray::next_object`. -/
def JsonArray.next_object (arr : JsonArray) : Except JsonError (JsonObject × JsonArray) :=
  match arr with
  | [] => Except.error (JsonError.bad_index 0)
  | x :: rest => x.get_object.map (fun ms => (ms, rest))

/-- Modelled from the spec: `JsonArray::get_string( i )`, the string at a position. -/
def JsonArray.get_string (arr : JsonArray) (i : Nat) : Except JsonError String :=
  match arr.get? i with
  | none => Except.error (JsonError.bad_index i)
  | some x => x.get_string

/-- Modelled from the spec: `JsonArray::get_float( i )`, the number at a position. -/
def JsonArray.get_float (arr : JsonArray) (i : Nat) : Except JsonError Int :=
  match arr.get? i with
  | none => Except.error (JsonError.bad_index i)
  | some x => x.get_float

/-- Modelled from the spec: `mandatory` of `generic_factory.h`. The member takes the value read;
when nothing can be read the load of a record not loaded before fails, and a record loaded
before keeps its value. -/
def mandatory {α : Type} (jo : JsonObject) (was_loaded : Bool) (name : String) (member : α)
    (reader : JsonObject → String → Option α) : Except JsonError α :=
  match reader jo name with
  | some v => Except.ok v
  | none => if was_loaded then Except.ok member else Except.error (JsonError.missing_mandatory name)

/-- Modelled from the spec: `optional` of `generic_factory.h`. The member takes the value read;
when nothing can be read a record not loaded before takes the default. -/
def optional {α : Type} (jo : JsonObject) (was_loaded : Bool) (name : String) (member : α)
    (reader : JsonObject → String → Option α) (default_value : α) : α :=
  match reader jo name with
  | some v => v
  | none => if was_loaded then member else default_value

/-- Modelled from the spec: `JsonObject::read( name, member )` with its result dropped; the
member takes the value when one can be read and is left alone otherwise. -/
def JsonObject.read {α : Type} (jo : JsonObject) (name : String) (member : α)
    (reader : JsonObject → String → Option α) : α :=
  match reader jo name with
  | some v => v
  | none => member

/-- Modelled from the spec: `assign`, which overwrites the value when the member can be read and
leaves it alone otherwise. -/
def assign {α : Type} (jo : JsonObject) (name : String) (val : α)
    (reader : JsonObject → String → Option α) : α :=
  match reader jo name with
  | some v => v
  | none => val

/-! ## The data model -/

/-- Modelled from the spec: the burn descriptor of one field-density level (`material.h` is not
among the sources); a default-initialised descriptor is all zero and not immune. -/
structure mat_burn_data where
  immune : Bool := false
  chance_in_volume : Int := 0
  fuel : Int := 0
  smoke : Int := 0
  burn : Int := 0
  deriving DecidableEq, Repr

/-- Modelled from the spec: the number of damage adjectives, `MAX_ITEM_DAMAGE`; damage levels
are clamped to the range 1 to 4. -/
def MAX_ITEM_DAMAGE : Nat := 4

/-- Modelled from the spec: the damage categories of `damage.h`. The five the switch of
`dam_resist` names are kept; `DT_OTHER` stands for every further value of the enumeration. -/
inductive damage_type where
  | DT_BASH : damage_type
  | DT_CUT : damage_type
  | DT_ACID : damage_type
  | DT_ELECTRIC : damage_type
  | DT_HEAT : damage_type
  | DT_OTHER (value : Nat) : damage_type
  deriving DecidableEq, Repr

/-- The sentinel identifier `NULL_ID`. -/
def NULL_ID : String := "null"

/-- The members of `material_type`, for `MAX_FIELD_DENSITY = N`; `_vitamins` is the `std::map`
as an association list with distinct keys, a quantity being the number literal read. -/
structure material_type (N : Nat) where
  id : String
  was_loaded : Bool
  _name : String
  _salvaged_into : String
  _repaired_with : String
  _bash_resist : Int
  _cut_resist : Int
  _acid_resist : Int
  _elec_resist : Int
  _fire_resist : Int
  _chip_resist : Int
  _density : Int
  _edible : Bool
  _soft : Bool
  _bash_dmg_verb : String
  _cut_dmg_verb : String
  _dmg_adj : Fin MAX_ITEM_DAMAGE → String
  _vitamins : List (String × Int)
  _burn_data : Fin N → mat_burn_data

/-- Modelled from the spec: the record before the constructor body runs, with the initial
values of the member declarations (`material.h` is not among the sources). The flag
`was_loaded` is false, strings and the mapping are empty, the two references are the "null"
sentinel, numbers are zero, flags are false and burn descriptors are default-initialised. -/
def material_type.declared (N : Nat) : material_type N where
  id := ""
  was_loaded := false
  _name := ""
  _salvaged_into := "null"
  _repaired_with := "null"
  _bash_resist := 0
  _cut_resist := 0
  _acid_resist := 0
  _elec_resist := 0
  _fire_resist := 0
  _chip_resist := 0
  _density := 0
  _edible := false
  _soft := false
  _bash_dmg_verb := ""
  _cut_dmg_verb := ""
  _dmg_adj := fun _ => ""
  _vitamins := []
  _burn_data := fun _ => {}

/-- The constructor `material_type::material_type()`: it sets `id`, the two verbs and the four
adjectives. -/
def material_type.construct (translate : String → String) (N : Nat) : material_type N :=
  let self := material_type.declared N
  let self := { self with
    id := NULL_ID
    _bash_dmg_verb := translate "damages"
    _cut_dmg_verb := translate "damages" }
  let self := { self with
    _dmg_adj := Function.update self._dmg_adj ⟨0, by decide⟩ (translate "lightly damaged") }
  let self := { self with
    _dmg_adj := Function.update self._dmg_adj ⟨1, by decide⟩ (translate "damaged") }
  let self := { self with
    _dmg_adj := Function.update self._dmg_adj ⟨2, by decide⟩ (translate "very damaged") }
  let self := { self with
    _dmg_adj := Function.update self._dmg_adj ⟨3, by decide⟩ (translate "thoroughly damaged") }
  self

/-! ## Loading -/

/-- The function `load_mat_burn_data`. -/
def load_mat_burn_data (jsobj : JsonObject) : mat_burn_data :=
  let bd : mat_burn_data := {}
  let bd := { bd with immune := assign jsobj "immune" bd.immune JsonObject.read_bool }
  let bd := { bd with
    chance_in_volume := assign jsobj "chance" bd.chance_in_volume JsonObject.read_int }
  let bd := { bd with fuel := jsobj.read "fuel" bd.fuel JsonObject.read_int }
  let bd := { bd with smoke := jsobj.read "smoke" bd.smoke JsonObject.read_int }
  let bd := { bd with burn := jsobj.read "burn" bd.burn JsonObject.read_int }
  bd

/-- The method `std::map::emplace`: the pair is added unless the key already has an entry. -/
def emplace (m : List (String × Int)) (key : String) (value : Int) : List (String × Int) :=
  match m.lookup key with
  | some _ => m
  | none => m ++ [(key, value)]

/-- The `while( arr.has_more() )` loop of `load` over the `vitamins` array; after
`arr.next_array()` the array is left with `rest`. -/
def load_vitamins : JsonArray → List (String × Int) → Except JsonError (List (String × Int))
  | [], _vitamins => Except.ok _vitamins
  | x :: rest, _vitamins => do
    let (pair, _) ← JsonArray.next_array (x :: rest)
    let key ← pair.get_string 0
    let value ← pair.get_float 1
    load_vitamins rest (emplace _vitamins key value)

/-- The conversion `( int )intensity` of a `size_t` to a 32-bit `int`. -/
def size_t_to_int (n : Nat) : Int :=
  ((n + 2 ^ 31) % 2 ^ 32 : Nat) - 2 ^ 31

/-- The `for( size_t intensity = 0; intensity < MAX_FIELD_DENSITY; intensity++ )` loop of `load`:
`n` iterations are left, so that `intensity + n = N` throughout. -/
def load_burn_data (N : Nat) (_fire_resist : Int) :
    (n : Nat) → (intensity : Nat) → intensity + n = N → JsonArray → (Fin N → mat_burn_data) →
      Except JsonError (Fin N → mat_burn_data)
  | 0, _, _, _, _burn_data => Except.ok _burn_data
  | n + 1, intensity, h, burn_data_array, _burn_data =>
    if burn_data_array.has_more then do
      let (brn, burn_data_array) ← burn_data_array.next_object
      load_burn_data N _fire_resist n (intensity + 1) (by omega) burn_data_array
        (Function.update _burn_data ⟨intensity, by omega⟩ (load_mat_burn_data brn))
    else
      let flammable : Bool := decide (_fire_resist ≤ size_t_to_int intensity)
      let mbd : mat_burn_data := {}
      let mbd := if flammable then { mbd with burn := 1 } else mbd
      load_burn_data N _fire_resist n (intensity + 1) (by omega) burn_data_array
        (Function.update _burn_data ⟨intensity, by omega⟩ mbd)

/-- The method `material_type::load`. -/
def material_type.load (translate : String → String) {N : Nat} (self : material_type N)
    (jsobj : JsonObject) : Except JsonError (material_type N) := do
  let was_loaded := self.was_loaded
  let _name ← mandatory jsobj was_loaded "name" self._name (translated_string_reader translate)
  let _bash_resist ← mandatory jsobj was_loaded "bash_resist" self._bash_resist JsonObject.read_int
  let _cut_resist ← mandatory jsobj was_loaded "cut_resist" self._cut_resist JsonObject.read_int
  let _acid_resist ← mandatory jsobj was_loaded "acid_resist" self._acid_resist JsonObject.read_int
  let _elec_resist ← mandatory jsobj was_loaded "elec_resist" self._elec_resist JsonObject.read_int
  let _fire_resist ← mandatory jsobj was_loaded "fire_resist" self._fire_resist JsonObject.read_int
  let _chip_resist ← mandatory jsobj was_loaded "chip_resist" self._chip_resist JsonObject.read_int
  let _density ← mandatory jsobj was_loaded "density" self._density JsonObject.read_int
  let _salvaged_into :=
    optional jsobj was_loaded "salvaged_into" self._salvaged_into JsonObject.read_string "null"
  let _repaired_with :=
    optional jsobj was_loaded "repaired_with" self._repaired_with JsonObject.read_string "null"
  let _edible := optional jsobj was_loaded "edible" self._edible JsonObject.read_bool false
  let _soft := optional jsobj was_loaded "chip_resist" self._soft JsonObject.read_bool false
  let arr ← jsobj.get_array "vitamins"
  let _vitamins ← load_vitamins arr self._vitamins
  let _bash_dmg_verb ←
    mandatory jsobj was_loaded "bash_dmg_verb" self._bash_dmg_verb
      (translated_string_reader translate)
  let _cut_dmg_verb ←
    mandatory jsobj was_loaded "cut_dmg_verb" self._cut_dmg_verb
      (translated_string_reader translate)
  let jsarr ← jsobj.get_array "dmg_adj"
  let (s0, jsarr) ← jsarr.next_string
  let (s1, jsarr) ← jsarr.next_string
  let (s2, jsarr) ← jsarr.next_string
  let (s3, _) ← jsarr.next_string
  let _dmg_adj : Fin MAX_ITEM_DAMAGE → String := self._dmg_adj
  let _dmg_adj := Function.update _dmg_adj ⟨0, by decide⟩ (translate s0)
  let _dmg_adj := Function.update _dmg_adj ⟨1, by decide⟩ (translate s1)
  let _dmg_adj := Function.update _dmg_adj ⟨2, by decide⟩ (translate s2)
  let _dmg_adj := Function.update _dmg_adj ⟨3, by decide⟩ (translate s3)
  let burn_data_array ← jsobj.get_array "burn_data"
  let _burn_data ← load_burn_data N _fire_resist N 0 (by omega) burn_data_array self._burn_data
  pure { self with
    _name := _name
    _bash_resist := _bash_resist
    _cut_resist := _cut_resist
    _acid_resist := _acid_resist
    _elec_resist := _elec_resist
    _fire_resist := _fire_resist
    _chip_resist := _chip_resist
    _density := _density
    _salvaged_into := _salvaged_into
    _repaired_with := _repaired_with
    _edible := _edible
    _soft := _soft
    _vitamins := _vitamins
    _bash_dmg_verb := _bash_dmg_verb
    _cut_dmg_verb := _cut_dmg_verb
    _dmg_adj := _dmg_adj
    _burn_data := _burn_data }

/-! ## Validation -/

/-- Modelled from the spec: the diagnostic sink `debugmsg` (`debug.h` is not among the sources),
which receives the formatted message and never raises; the message is appended to the log. -/
def debugmsg (log : List String) (message : String) : List String :=
  log ++ [message]

/-- The method `material_type::name`. -/
def material_type.name {N : Nat} (self : material_type N) : String :=
  self._name

/-- The method `material_type::check`, a `const` method: it hands back the record it was given
and the diagnostic log. A `%s` of the format is replaced by the string. -/
def material_type.check (type_is_defined : String → Bool) {N : Nat} (self : material_type N)
    (log : List String) : material_type N × List String :=
  let log :=
    if self.name = "" then
      debugmsg log ("material " ++ self.id ++ " has no name.")
    else log
  let log :=
    if !type_is_defined self._salvaged_into then
      debugmsg log
        ("invalid \"salvaged_into\" " ++ self._salvaged_into ++ " for " ++ self.id ++ ".")
    else log
  let log :=
    if !type_is_defined self._repaired_with then
      debugmsg log
        ("invalid \"repaired_with\" " ++ self._repaired_with ++ " for " ++ self.id ++ ".")
    else log
  (self, log)

/-! ## Query accessors -/

/-- A read `a[ index ]` of a C array of length `n`: `none` when the index is outside `0..n-1`. -/
def array_read {n : Nat} {α : Type} (a : Fin n → α) (index : Int) : Option α :=
  if h : 0 ≤ index ∧ index < n then some (a ⟨index.toNat, by omega⟩) else none

/-- The method `material_type::dam_resist`. -/
def material_type.dam_resist {N : Nat} (self : material_type N) (damtype : damage_type) : Int :=
  match damtype with
  | damage_type.DT_BASH => self._bash_resist
  | damage_type.DT_CUT => self._cut_resist
  | damage_type.DT_ACID => self._acid_resist
  | damage_type.DT_ELECTRIC => self._elec_resist
  | damage_type.DT_HEAT => self._fire_resist
  | _ => 0

/-- The method `material_type::ident`. -/
def material_type.ident {N : Nat} (self : material_type N) : String := self.id

/-- The method `material_type::salvaged_into`. -/
def material_type.salvaged_into {N : Nat} (self : material_type N) : String := self._salvaged_into

/-- The method `material_type::repaired_with`. -/
def material_type.repaired_with {N : Nat} (self : material_type N) : String := self._repaired_with

/-- The method `material_type::bash_resist`. -/
def material_type.bash_resist {N : Nat} (self : material_type N) : Int := self._bash_resist

/-- The method `material_type::cut_resist`. -/
def material_type.cut_resist {N : Nat} (self : material_type N) : Int := self._cut_resist

/-- The method `material_type::bash_dmg_verb`. -/
def material_type.bash_dmg_verb {N : Nat} (self : material_type N) : String := self._bash_dmg_verb

/-- The method `material_type::cut_dmg_verb`. -/
def material_type.cut_dmg_verb {N : Nat} (self : material_type N) : String := self._cut_dmg_verb

/-- The index `std::min( damage, MAX_ITEM_DAMAGE ) - 1` of `dmg_adj`, in `int` arithmetic. -/
def dmg_adj_index (damage : Int) : Int :=
  min damage (MAX_ITEM_DAMAGE : Int) - 1

/-- The method `material_type::dmg_adj`. -/
def material_type.dmg_adj {N : Nat} (self : material_type N) (damage : Int) : Option String :=
  if damage ≤ 0 then
    some ""
  else
    array_read self._dmg_adj (dmg_adj_index damage)

/-- The method `material_type::acid_resist`. -/
def material_type.acid_resist {N : Nat} (self : material_type N) : Int := self._acid_resist

/-- The method `material_type::elec_resist`. -/
def material_type.elec_resist {N : Nat} (self : material_type N) : Int := self._elec_resist

/-- The method `material_type::fire_resist`. -/
def material_type.fire_resist {N : Nat} (self : material_type N) : Int := self._fire_resist

/-- The method `material_type::chip_resist`. -/
def material_type.chip_resist {N : Nat} (self : material_type N) : Int := self._chip_resist

/-- The method `material_type::density`. -/
def material_type.density {N : Nat} (self : material_type N) : Int := self._density

/-- The method `material_type::edible`. -/
def material_type.edible {N : Nat} (self : material_type N) : Bool := self._edible

/-- The method `material_type::soft`. -/
def material_type.soft {N : Nat} (self : material_type N) : Bool := self._soft

/-- The number of values of a `size_t`. -/
def SIZE_T_RANGE : Nat := 2 ^ 64

/-- The index `std::min<size_t>( intensity, MAX_FIELD_DENSITY ) - 1` of `burn_data`: the
subtraction is unsigned and wraps. -/
def burn_data_index (N : Nat) (intensity : Nat) : Nat :=
  (min intensity N + SIZE_T_RANGE - 1) % SIZE_T_RANGE

/-- The method `material_type::burn_data`. -/
def material_type.burn_data {N : Nat} (self : material_type N) (intensity : Nat) :
    Option mat_burn_data :=
  array_read self._burn_data (burn_data_index N intensity)


/-! ## Sample inputs -/

/-- A material definition with every mandatory member, no vitamins and no burn data. -/
def sample_object : JsonObject :=
  [("ident", JsonValue.string "wood"),
   ("name", JsonValue.string "Wood"),
   ("bash_resist", JsonValue.number 2),
   ("cut_resist", JsonValue.number 3),
   ("acid_resist", JsonValue.number 1),
   ("elec_resist", JsonValue.number 5),
   ("fire_resist", JsonValue.number 2),
   ("chip_resist", JsonValue.number 8),
   ("density", JsonValue.number 7),
   ("bash_dmg_verb", JsonValue.string "splintered"),
   ("cut_dmg_verb", JsonValue.string "gouged"),
   ("dmg_adj", JsonValue.array [JsonValue.string "scratched", JsonValue.string "cut",
     JsonValue.string "cracked", JsonValue.string "splintered"])]


/-- The sample definition with one explicit burn descriptor and a vitamin listed twice. -/
def sample_burning_object : JsonObject :=
  sample_object ++
  [("vitamins", JsonValue.array [
     JsonValue.array [JsonValue.string "calcium", JsonValue.number 1],
     JsonValue.array [JsonValue.string "iron", JsonValue.number 5],
     JsonValue.array [JsonValue.string "calcium", JsonValue.number 2]]),
   ("burn_data", JsonValue.array [
     JsonValue.object [("fuel", JsonValue.number 1), ("smoke", JsonValue.number 1),
       ("burn", JsonValue.number 1)]])]

/-- The sample definition without its `density` member. -/
def sample_without_density : JsonObject :=
  sample_object.filter (fun member => member.1 != "density")

/-- The sample definition with only three damage adjectives. -/
def sample_three_adjectives : JsonObject :=
  sample_object.filter (fun member => member.1 != "dmg_adj") ++
  [("dmg_adj", JsonValue.array [JsonValue.string "scratched", JsonValue.string "cut",
     JsonValue.string "cracked"])]

/-- A loaded record whose `salvaged_into` names an item type nobody defines. -/
def sample_record : material_type 3 :=
  { material_type.construct id 3 with
    id := "wood"
    _name := "Wood"
    _salvaged_into := "splinter_typo" }

/-- An item registry that defines the "null" item and a few planks. -/
def sample_type_is_defined (type : String) : Bool :=
  type == "null" || type == "2x4" || type == "splinter"

/-! ## Well-typed input -/

/-- Whether a value can stand in the `vitamins` array: an array that starts with an identifier
and a quantity. -/
def is_vitamin_pair : JsonValue → Bool
  | JsonValue.array (JsonValue.string _ :: JsonValue.number _ :: _) => true
  | _ => false

/-- Whether a value is an object. -/
def is_object : JsonValue → Bool
  | JsonValue.object _ => true
  | _ => false

/-- Whether the `vitamins` member is absent or an array of identifier and quantity pairs. -/
def valid_vitamins (jo : JsonObject) : Bool :=
  match jo.get_member "vitamins" with
  | none => true
  | some (JsonValue.array xs) => xs.all is_vitamin_pair
  | some _ => false

/-- Whether the `dmg_adj` member is an array that starts with four strings. -/
def valid_dmg_adj (jo : JsonObject) : Bool :=
  match jo.get_member "dmg_adj" with
  | some (JsonValue.array (JsonValue.string _ :: JsonValue.string _ :: JsonValue.string _ ::
      JsonValue.string _ :: _)) => true
  | _ => false

/-- Whether the `burn_data` member is absent or an array whose elements for the `N` levels are
objects. -/
def valid_burn_data (N : Nat) (jo : JsonObject) : Bool :=
  match jo.get_member "burn_data" with
  | none => true
  | some (JsonValue.array xs) => (xs.take N).all is_object
  | some _ => false

/-- The member names `load` reads with `mandatory`, in the order of the calls. -/
def mandatory_keys : List String :=
  ["name", "bash_resist", "cut_resist", "acid_resist", "elec_resist", "fire_resist",
   "chip_resist", "density", "bash_dmg_verb", "cut_dmg_verb"]

/-- A valid input object: every mandatory member is present with the type `load` reads it at,
`dmg_adj` holds at least four strings, and the optional arrays are well typed. -/
def valid_input (N : Nat) (jo : JsonObject) : Bool :=
  (jo.read_string "name").isSome &&
  (jo.read_int "bash_resist").isSome &&
  (jo.read_int "cut_resist").isSome &&
  (jo.read_int "acid_resist").isSome &&
  (jo.read_int "elec_resist").isSome &&
  (jo.read_int "fire_resist").isSome &&
  (jo.read_int "chip_resist").isSome &&
  (jo.read_int "density").isSome &&
  (jo.read_string "bash_dmg_verb").isSome &&
  (jo.read_string "cut_dmg_verb").isSome &&
  valid_vitamins jo &&
  valid_dmg_adj jo &&
  valid_burn_data N jo

/-! ## The outcome of a load -/

/-- What `load` leaves in the record when it returns normally. -/
structure load_outcome (translate : String → String) {N : Nat} (r r' : material_type N)
    (jo : JsonObject) : Prop where
  id_eq : r'.id = r.id
  was_loaded_eq : r'.was_loaded = r.was_loaded
  name_eq : mandatory jo r.was_loaded "name" r._name (translated_string_reader translate) =
    Except.ok r'._name
  bash_eq : mandatory jo r.was_loaded "bash_resist" r._bash_resist JsonObject.read_int =
    Except.ok r'._bash_resist
  cut_eq : mandatory jo r.was_loaded "cut_resist" r._cut_resist JsonObject.read_int =
    Except.ok r'._cut_resist
  acid_eq : mandatory jo r.was_loaded "acid_resist" r._acid_resist JsonObject.read_int =
    Except.ok r'._acid_resist
  elec_eq : mandatory jo r.was_loaded "elec_resist" r._elec_resist JsonObject.read_int =
    Except.ok r'._elec_resist
  fire_eq : mandatory jo r.was_loaded "fire_resist" r._fire_resist JsonObject.read_int =
    Except.ok r'._fire_resist
  chip_eq : mandatory jo r.was_loaded "chip_resist" r._chip_resist JsonObject.read_int =
    Except.ok r'._chip_resist
  density_eq : mandatory jo r.was_loaded "density" r._density JsonObject.read_int =
    Except.ok r'._density
  salvaged_eq : r'._salvaged_into =
    optional jo r.was_loaded "salvaged_into" r._salvaged_into JsonObject.read_string "null"
  repaired_eq : r'._repaired_with =
    optional jo r.was_loaded "repaired_with" r._repaired_with JsonObject.read_string "null"
  edible_eq : r'._edible =
    optional jo r.was_loaded "edible" r._edible JsonObject.read_bool false
  soft_eq : r'._soft =
    optional jo r.was_loaded "chip_resist" r._soft JsonObject.read_bool false
  vitamins_eq : ∃ arr, jo.get_array "vitamins" = Except.ok arr ∧
    load_vitamins arr r._vitamins = Except.ok r'._vitamins
  bash_verb_eq : mandatory jo r.was_loaded "bash_dmg_verb" r._bash_dmg_verb
    (translated_string_reader translate) = Except.ok r'._bash_dmg_verb
  cut_verb_eq : mandatory jo r.was_loaded "cut_dmg_verb" r._cut_dmg_verb
    (translated_string_reader translate) = Except.ok r'._cut_dmg_verb
  dmg_adj_eq : ∃ jsarr p0 p1 p2 p3, jo.get_array "dmg_adj" = Except.ok jsarr ∧
    JsonArray.next_string jsarr = Except.ok p0 ∧
    JsonArray.next_string p0.2 = Except.ok p1 ∧
    JsonArray.next_string p1.2 = Except.ok p2 ∧
    JsonArray.next_string p2.2 = Except.ok p3 ∧
    r'._dmg_adj =
      Function.update (Function.update (Function.update (Function.update r._dmg_adj
        ⟨0, by decide⟩ (translate p0.1)) ⟨1, by decide⟩ (translate p1.1))
        ⟨2, by decide⟩ (translate p2.1)) ⟨3, by decide⟩ (translate p3.1)
  burn_data_eq : ∃ burn_data_array, jo.get_array "burn_data" = Except.ok burn_data_array ∧
    load_burn_data N r'._fire_resist N 0 (Nat.zero_add N) burn_data_array r._burn_data =
      Except.ok r'._burn_data

/-! ## Query accessors: properties -/

theorem array_read_eq {n : Nat} {α : Type} (a : Fin n → α) (i : Fin n) :
    array_read a (i.val : Int) = some (a i) := by
  unfold array_read
  have h : 0 ≤ (i.val : Int) ∧ (i.val : Int) < n := ⟨by omega, by have := i.isLt; omega⟩
  rw [dif_pos h]
  congr

theorem array_read_none {n : Nat} {α : Type} (a : Fin n → α) (index : Int)
    (h : (n : Int) ≤ index) : array_read a index = none := by
  unfold array_read
  rw [dif_neg]
  omega

/-- C2: `dam_resist` returns the stored bash, cut, acid, electric and fire resistance for
`DT_BASH`, `DT_CUT`, `DT_ACID`, `DT_ELECTRIC` and `DT_HEAT`, and 0 for every other damage
type. -/
theorem dam_resist_by_type {N : Nat} (r : material_type N) :
    r.dam_resist damage_type.DT_BASH = r.bash_resist ∧
    r.dam_resist damage_type.DT_CUT = r.cut_resist ∧
    r.dam_resist damage_type.DT_ACID = r.acid_resist ∧
    r.dam_resist damage_type.DT_ELECTRIC = r.elec_resist ∧
    r.dam_resist damage_type.DT_HEAT = r.fire_resist ∧
    ∀ damtype : damage_type,
      damtype ∉ [damage_type.DT_BASH, damage_type.DT_CUT, damage_type.DT_ACID,
        damage_type.DT_ELECTRIC, damage_type.DT_HEAT] →
      r.dam_resist damtype = 0 := by
  refine ⟨rfl, rfl, rfl, rfl, rfl, ?_⟩
  intro damtype h
  cases damtype <;> simp_all [material_type.dam_resist]

/-- C3: `dmg_adj( d )` is the empty string when `d <= 0`, and for `d >= 1` it is the adjective
in slot `min( d, 4 ) - 1`: slot `d - 1` when `d <= 4`, slot 3 when `d > 4`. -/
theorem dmg_adj_clamped {N : Nat} (r : material_type N) (d : Int) :
    (d ≤ 0 → r.dmg_adj d = some "") ∧
    (1 ≤ d → ∃ i : Fin MAX_ITEM_DAMAGE, (i.val : Int) = min d 4 - 1 ∧
      r.dmg_adj d = some (r._dmg_adj i)) ∧
    (1 ≤ d → d ≤ 4 → ∃ i : Fin MAX_ITEM_DAMAGE, (i.val : Int) = d - 1 ∧
      r.dmg_adj d = some (r._dmg_adj i)) ∧
    (4 < d → r.dmg_adj d = some (r._dmg_adj ⟨3, by decide⟩)) := by
  have key : 1 ≤ d → ∃ i : Fin MAX_ITEM_DAMAGE, (i.val : Int) = min d 4 - 1 ∧
      r.dmg_adj d = some (r._dmg_adj i) := by
    intro h1
    have hlt : (min d 4 - 1).toNat < MAX_ITEM_DAMAGE := by
      unfold MAX_ITEM_DAMAGE
      omega
    have hval : (((min d 4 - 1).toNat : Nat) : Int) = min d 4 - 1 := by omega
    refine ⟨⟨(min d 4 - 1).toNat, hlt⟩, hval, ?_⟩
    unfold material_type.dmg_adj
    rw [if_neg (by omega)]
    have hidx : dmg_adj_index d = (((⟨(min d 4 - 1).toNat, hlt⟩ : Fin MAX_ITEM_DAMAGE).val : Nat) : Int) := by
      unfold dmg_adj_index MAX_ITEM_DAMAGE
      simp only []
      omega
    rw [hidx, array_read_eq]
  refine ⟨?_, key, ?_, ?_⟩
  · intro h
    unfold material_type.dmg_adj
    rw [if_pos h]
  · intro h1 h4
    obtain ⟨i, hi, hr⟩ := key h1
    exact ⟨i, by omega, hr⟩
  · intro h4
    obtain ⟨i, hi, hr⟩ := key (by omega)
    have : i = ⟨3, by decide⟩ := by
      apply Fin.ext
      simp only []
      omega
    rw [hr, this]

/-- C3 on a newly constructed record: no adjective at damage 0 and below, the second adjective
at damage 2, the fourth at damage 4 and at damage 7. -/
theorem dmg_adj_clamped_witness :
    (material_type.construct id 3).dmg_adj 0 = some "" ∧
    (material_type.construct id 3).dmg_adj (-2) = some "" ∧
    (∃ i : Fin MAX_ITEM_DAMAGE, (i.val : Int) = 2 - 1 ∧
      (material_type.construct id 3).dmg_adj 2 =
        some ((material_type.construct id 3)._dmg_adj i)) ∧
    (material_type.construct id 3).dmg_adj 2 = some "damaged" ∧
    (material_type.construct id 3).dmg_adj 4 = some "thoroughly damaged" ∧
    (material_type.construct id 3).dmg_adj 7 =
      some ((material_type.construct id 3)._dmg_adj ⟨3, by decide⟩) ∧
    (material_type.construct id 3).dmg_adj 7 = some "thoroughly damaged" :=
  ⟨(dmg_adj_clamped (material_type.construct id 3) 0).1 (by decide),
    (dmg_adj_clamped (material_type.construct id 3) (-2)).1 (by decide),
    (dmg_adj_clamped (material_type.construct id 3) 2).2.2.1 (by decide) (by decide),
    by decide, by decide,
    (dmg_adj_clamped (material_type.construct id 3) 7).2.2.2 (by decide),
    by decide⟩

/-- C7: for an intensity of at least 1, `burn_data( intensity )` is the stored descriptor at
index `min( intensity, MAX_FIELD_DENSITY ) - 1`: level `intensity - 1` up to
`MAX_FIELD_DENSITY`, the last level above it. -/
theorem burn_data_clamped {N : Nat} (r : material_type N) (intensity : Nat) (hN : 0 < N)
    (h1 : 1 ≤ intensity) (hsize : intensity < SIZE_T_RANGE) :
    ∃ i : Fin N, i.val = min intensity N - 1 ∧
      (intensity ≤ N → i.val = intensity - 1) ∧
      (N < intensity → i.val = N - 1) ∧
      r.burn_data intensity = some (r._burn_data i) := by
  have hlt : min intensity N - 1 < N := by omega
  refine ⟨⟨min intensity N - 1, hlt⟩, rfl, ?_, ?_, ?_⟩
  · intro h
    simp only []
    omega
  · intro h
    simp only []
    omega
  · unfold material_type.burn_data
    have hidx : burn_data_index N intensity = min intensity N - 1 := by
      unfold burn_data_index
      unfold SIZE_T_RANGE at *
      omega
    rw [hidx]
    exact array_read_eq r._burn_data ⟨min intensity N - 1, hlt⟩

/-- C7 at intensity 5 with three levels: the read is the descriptor of the last level. -/
theorem burn_data_clamped_witness :
    ∃ i : Fin 3, i.val = min 5 3 - 1 ∧ ((5 : Nat) ≤ 3 → i.val = 5 - 1) ∧
      (3 < 5 → i.val = 3 - 1) ∧
      (material_type.construct id 3).burn_data 5 =
        some ((material_type.construct id 3)._burn_data i) :=
  burn_data_clamped (material_type.construct id 3) 5 (by decide) (by decide) (by decide)

/-- C8: `burn_data( 0 )` computes the index `0 - 1` in unsigned arithmetic, which is
`2 ^ 64 - 1` whatever `MAX_FIELD_DENSITY` is, and with three levels the read leaves the
array. -/
theorem burn_data_zero_out_of_range :
    (∀ N : Nat, burn_data_index N 0 = 18446744073709551615) ∧
    ¬ burn_data_index 3 0 < 3 ∧
    (material_type.construct id 3).burn_data 0 = none := by
  refine ⟨?_, by decide, ?_⟩
  · intro N
    unfold burn_data_index SIZE_T_RANGE
    simp
  · unfold material_type.burn_data
    apply array_read_none
    have : burn_data_index 3 0 = 18446744073709551615 := by decide
    rw [this]
    norm_num

/-! ## Validation: properties -/

/-- C10: `check` hands the record back unchanged and appends to the log exactly one message
per violated condition, in the order empty name, undefined `salvaged_into`, undefined
`repaired_with`; with a name, a defined `repaired_with` and an undefined `salvaged_into` it
appends exactly one message, which contains the material id and the bad reference. -/
theorem check_diagnostics (type_is_defined : String → Bool) {N : Nat} (r : material_type N)
    (log : List String) :
    (r.check type_is_defined log).1 = r ∧
    (r.check type_is_defined log).2 =
      log ++
        (if r.name = "" then ["material " ++ r.ident ++ " has no name."] else []) ++
        (if type_is_defined r.salvaged_into = false then
          ["invalid \"salvaged_into\" " ++ r.salvaged_into ++ " for " ++ r.ident ++ "."]
         else []) ++
        (if type_is_defined r.repaired_with = false then
          ["invalid \"repaired_with\" " ++ r.repaired_with ++ " for " ++ r.ident ++ "."]
         else []) ∧
    (r.name ≠ "" → type_is_defined r.repaired_with = true →
      type_is_defined r.salvaged_into = false →
      ∃ message : String,
        (r.check type_is_defined log).2 = log ++ [message] ∧
        (∃ pre post : String, message = pre ++ r.ident ++ post) ∧
        (∃ pre post : String, message = pre ++ r.salvaged_into ++ post)) := by
  have hlog : (r.check type_is_defined log).2 =
      log ++
        (if r.name = "" then ["material " ++ r.ident ++ " has no name."] else []) ++
        (if type_is_defined r.salvaged_into = false then
          ["invalid \"salvaged_into\" " ++ r.salvaged_into ++ " for " ++ r.ident ++ "."]
         else []) ++
        (if type_is_defined r.repaired_with = false then
          ["invalid \"repaired_with\" " ++ r.repaired_with ++ " for " ++ r.ident ++ "."]
         else []) := by
    unfold material_type.check debugmsg material_type.salvaged_into material_type.repaired_with
      material_type.ident
    by_cases h1 : r.name = "" <;>
      cases h2 : type_is_defined r._salvaged_into <;>
      cases h3 : type_is_defined r._repaired_with <;>
      simp [h1]
  refine ⟨rfl, hlog, ?_⟩
  intro hname hrep hsal
  refine ⟨"invalid \"salvaged_into\" " ++ r.salvaged_into ++ " for " ++ r.ident ++ ".", ?_,
    ⟨"invalid \"salvaged_into\" " ++ r.salvaged_into ++ " for ", ".", rfl⟩,
    ⟨"invalid \"salvaged_into\" ", " for " ++ r.ident ++ ".", ?_⟩⟩
  · rw [hlog, if_neg hname, if_pos hsal, if_neg (by simp [hrep])]
    simp
  · simp only [String.append_assoc]

/-- C10 for a record named "Wood" whose `salvaged_into` is undefined and whose `repaired_with`
is the defined "null" item: one diagnostic, naming the reference and the material. -/
theorem check_diagnostics_witness :
    (sample_record.check sample_type_is_defined []).1 = sample_record ∧
    (sample_record.check sample_type_is_defined []).2 =
      ["invalid \"salvaged_into\" splinter_typo for wood."] ∧
    ∃ message : String,
      (sample_record.check sample_type_is_defined []).2 = [] ++ [message] ∧
      (∃ pre post : String, message = pre ++ sample_record.ident ++ post) ∧
      (∃ pre post : String, message = pre ++ sample_record.salvaged_into ++ post) :=
  ⟨(check_diagnostics sample_type_is_defined sample_record []).1, by decide,
    (check_diagnostics sample_type_is_defined sample_record []).2.2 (by decide) (by decide)
      (by decide)⟩

/-! ## Loading: what a successful load stores -/

theorem mandatory_ok_iff {α : Type} (jo : JsonObject) (name : String) (member v : α)
    (reader : JsonObject → String → Option α) :
    mandatory jo false name member reader = Except.ok v ↔ reader jo name = some v := by
  unfold mandatory
  cases reader jo name <;> simp

theorem mandatory_of_read {α : Type} (jo : JsonObject) (was_loaded : Bool) (name : String)
    (member v : α) (reader : JsonObject → String → Option α) (h : reader jo name = some v) :
    mandatory jo was_loaded name member reader = Except.ok v := by
  unfold mandatory
  rw [h]

theorem load_inv (translate : String → String) {N : Nat} (r r' : material_type N)
    (jo : JsonObject) (h : r.load translate jo = Except.ok r') :
    load_outcome translate r r' jo := by
  simp only [material_type.load, bind, Except.bind] at h
  repeat' (split at h; · exact absurd h (by simp))
  simp only [pure, Except.pure, Except.ok.injEq] at h
  subst h
  constructor
  all_goals first
    | rfl
    | assumption
    | exact ⟨_, by assumption, by assumption⟩
    | exact ⟨_, _, _, _, _, by assumption, by assumption, by assumption, by assumption,
        by assumption, rfl⟩

theorem load_vitamins_ok (xs : JsonArray) (h : xs.all is_vitamin_pair = true)
    (m : List (String × Int)) : ∃ m', load_vitamins xs m = Except.ok m' := by
  induction xs generalizing m with
  | nil => exact ⟨m, rfl⟩
  | cons x rest ih =>
    simp only [List.all_cons, Bool.and_eq_true] at h
    obtain ⟨hx, hrest⟩ := h
    match x, hx with
    | JsonValue.array (JsonValue.string k :: JsonValue.number q :: tail), _ =>
      obtain ⟨m', hm'⟩ := ih hrest (emplace m k q)
      refine ⟨m', ?_⟩
      simpa [load_vitamins, JsonArray.next_array, JsonValue.get_array, JsonArray.get_string,
        JsonArray.get_float, JsonValue.get_string, JsonValue.get_float, bind, Except.bind,
        Except.map] using hm'

theorem load_burn_data_ok (N : Nat) (fr : Int) (n : Nat) :
    ∀ (intensity : Nat) (h : intensity + n = N) (arr : JsonArray) (bd : Fin N → mat_burn_data),
      (arr.take n).all is_object = true →
      ∃ bd', load_burn_data N fr n intensity h arr bd = Except.ok bd' := by
  induction n with
  | zero =>
    intro intensity h arr bd _
    exact ⟨bd, rfl⟩
  | succ n ih =>
    intro intensity h arr bd hall
    cases arr with
    | nil =>
      obtain ⟨bd', hbd'⟩ := ih (intensity + 1) (by omega) []
        (Function.update bd ⟨intensity, by omega⟩
          (if decide (fr ≤ size_t_to_int intensity) = true then { burn := 1 } else {}))
        (by simp)
      refine ⟨bd', ?_⟩
      simpa [load_burn_data, JsonArray.has_more] using hbd'
    | cons x rest =>
      simp only [List.take_succ_cons, List.all_cons, Bool.and_eq_true] at hall
      obtain ⟨hx, hrest⟩ := hall
      match x, hx with
      | JsonValue.object brn, _ =>
        obtain ⟨bd', hbd'⟩ := ih (intensity + 1) (by omega) rest
          (Function.update bd ⟨intensity, by omega⟩ (load_mat_burn_data brn)) hrest
        refine ⟨bd', ?_⟩
        simpa [load_burn_data, JsonArray.has_more, JsonArray.next_object,
          JsonValue.get_object, bind, Except.bind, Except.map] using hbd'

theorem get_array_vitamins_of_valid (jo : JsonObject) (h : valid_vitamins jo = true) :
    ∃ arr, jo.get_array "vitamins" = Except.ok arr ∧ arr.all is_vitamin_pair = true := by
  unfold valid_vitamins at h
  unfold JsonObject.get_array
  split at h
  · rename_i heq
    exact ⟨[], by simp [heq], by simp⟩
  · rename_i xs heq
    exact ⟨xs, by simp [heq], h⟩
  · exact absurd h (by simp)

theorem get_array_burn_data_of_valid (N : Nat) (jo : JsonObject)
    (h : valid_burn_data N jo = true) :
    ∃ arr, jo.get_array "burn_data" = Except.ok arr ∧ (arr.take N).all is_object = true := by
  unfold valid_burn_data at h
  unfold JsonObject.get_array
  split at h
  · rename_i heq
    exact ⟨[], by simp [heq], by simp⟩
  · rename_i xs heq
    exact ⟨xs, by simp [heq], h⟩
  · exact absurd h (by simp)

theorem get_array_dmg_adj_of_valid (jo : JsonObject) (h : valid_dmg_adj jo = true) :
    ∃ s0 s1 s2 s3 rest, jo.get_member "dmg_adj" = some (JsonValue.array
      (JsonValue.string s0 :: JsonValue.string s1 :: JsonValue.string s2 ::
        JsonValue.string s3 :: rest)) := by
  unfold valid_dmg_adj at h
  split at h
  · rename_i s0 s1 s2 s3 rest heq
    exact ⟨s0, s1, s2, s3, rest, heq⟩
  · exact absurd h (by simp)

theorem load_of_valid (translate : String → String) {N : Nat} (r : material_type N)
    (jo : JsonObject) (h : valid_input N jo = true) :
    ∃ r', r.load translate jo = Except.ok r' := by
  simp only [valid_input, Bool.and_eq_true, Option.isSome_iff_exists] at h
  obtain ⟨⟨⟨⟨⟨⟨⟨⟨⟨⟨⟨⟨⟨name, hname⟩, ⟨b, hb⟩⟩, ⟨c, hc⟩⟩, ⟨a, ha⟩⟩, ⟨e, he⟩⟩, ⟨f, hf⟩⟩, ⟨ch, hch⟩⟩,
    ⟨d, hd⟩⟩, ⟨bv, hbv⟩⟩, ⟨cv, hcv⟩⟩, hvit⟩, hadj⟩, hburn⟩ := h
  obtain ⟨arr, harr, hall⟩ := get_array_vitamins_of_valid jo hvit
  obtain ⟨vit, hvit'⟩ := load_vitamins_ok arr hall r._vitamins
  obtain ⟨s0, s1, s2, s3, rest, hadj'⟩ := get_array_dmg_adj_of_valid jo hadj
  obtain ⟨bda, hbda, hobj⟩ := get_array_burn_data_of_valid N jo hburn
  obtain ⟨bd', hbd'⟩ := load_burn_data_ok N f N 0 (Nat.zero_add N) bda r._burn_data hobj
  have hadj2 : jo.get_array "dmg_adj" = Except.ok (JsonValue.string s0 :: JsonValue.string s1 ::
      JsonValue.string s2 :: JsonValue.string s3 :: rest) := by
    unfold JsonObject.get_array
    rw [hadj']
  have m1 := mandatory_of_read jo r.was_loaded "name" r._name (translate name)
    (translated_string_reader translate) (by simp [translated_string_reader, hname])
  have m2 := mandatory_of_read jo r.was_loaded "bash_resist" r._bash_resist b _ hb
  have m3 := mandatory_of_read jo r.was_loaded "cut_resist" r._cut_resist c _ hc
  have m4 := mandatory_of_read jo r.was_loaded "acid_resist" r._acid_resist a _ ha
  have m5 := mandatory_of_read jo r.was_loaded "elec_resist" r._elec_resist e _ he
  have m6 := mandatory_of_read jo r.was_loaded "fire_resist" r._fire_resist f _ hf
  have m7 := mandatory_of_read jo r.was_loaded "chip_resist" r._chip_resist ch _ hch
  have m8 := mandatory_of_read jo r.was_loaded "density" r._density d _ hd
  have m9 := mandatory_of_read jo r.was_loaded "bash_dmg_verb" r._bash_dmg_verb (translate bv)
    (translated_string_reader translate) (by simp [translated_string_reader, hbv])
  have m10 := mandatory_of_read jo r.was_loaded "cut_dmg_verb" r._cut_dmg_verb (translate cv)
    (translated_string_reader translate) (by simp [translated_string_reader, hcv])
  simp only [material_type.load, bind, Except.bind, m1, m2, m3, m4, m5, m6, m7, m8, m9, m10,
    harr, hvit', hadj2, hbda, hbd', JsonArray.next_string, JsonValue.get_string, Except.map,
    pure, Except.pure]
  exact ⟨_, rfl⟩

theorem next_string_ok (arr : JsonArray) (p : String × JsonArray)
    (h : JsonArray.next_string arr = Except.ok p) : arr = JsonValue.string p.1 :: p.2 := by
  unfold JsonArray.next_string at h
  cases arr with
  | nil => exact absurd h (by simp)
  | cons x rest =>
    cases x <;> simp [JsonValue.get_string, Except.map] at h
    subst h
    rfl

theorem get_array_cons (jo : JsonObject) (name : String) (x : JsonValue) (xs : JsonArray)
    (h : jo.get_array name = Except.ok (x :: xs)) :
    jo.get_member name = some (JsonValue.array (x :: xs)) := by
  unfold JsonObject.get_array at h
  split at h
  · exact absurd h (by simp)
  · rename_i ys heq
    simp only [Except.ok.injEq] at h
    rw [heq, h]
  · exact absurd h (by simp)

theorem get_array_of_member (jo : JsonObject) (name : String) (xs : JsonArray)
    (h : jo.get_member name = some (JsonValue.array xs)) :
    jo.get_array name = Except.ok xs := by
  unfold JsonObject.get_array
  rw [h]

theorem read_int_member (jo : JsonObject) (name : String) (v : Int)
    (h : jo.read_int name = some v) : jo.get_member name = some (JsonValue.number v) := by
  unfold JsonObject.read_int at h
  split at h
  · rename_i n heq
    simp only [Option.some.injEq] at h
    rw [heq, h]
  · exact absurd h (by simp)

theorem read_string_member (jo : JsonObject) (name : String) (v : String)
    (h : jo.read_string name = some v) : jo.get_member name = some (JsonValue.string v) := by
  unfold JsonObject.read_string at h
  split at h
  · rename_i n heq
    simp only [Option.some.injEq] at h
    rw [heq, h]
  · exact absurd h (by simp)

theorem translated_reader_member (translate : String → String) (jo : JsonObject)
    (name : String) (v : String) (h : translated_string_reader translate jo name = some v) :
    ∃ s, jo.get_member name = some (JsonValue.string s) ∧ v = translate s := by
  unfold translated_string_reader at h
  cases hs : jo.read_string name with
  | none => rw [hs] at h; exact absurd h (by simp)
  | some s =>
    rw [hs] at h
    simp only [Option.map_some', Option.some.injEq] at h
    exact ⟨s, read_string_member jo name s hs, h.symm⟩

theorem optional_default {α : Type} (jo : JsonObject) (name : String) (member d : α)
    (reader : JsonObject → String → Option α) (h : reader jo name = none) :
    optional jo false name member reader d = d := by
  unfold optional
  rw [h]
  rfl

theorem read_string_absent (jo : JsonObject) (name : String) (h : jo.get_member name = none) :
    jo.read_string name = none := by
  unfold JsonObject.read_string
  rw [h]

theorem read_bool_absent (jo : JsonObject) (name : String) (h : jo.get_member name = none) :
    jo.read_bool name = none := by
  unfold JsonObject.read_bool
  rw [h]

theorem read_int_absent (jo : JsonObject) (name : String) (h : jo.get_member name = none) :
    jo.read_int name = none := by
  unfold JsonObject.read_int
  rw [h]

/-- The four adjectives of a successful load: the array starts with four strings and each
slot holds the localised string of its position. -/
theorem load_inv_dmg_adj (translate : String → String) {N : Nat} (r r' : material_type N)
    (jo : JsonObject) (h : r.load translate jo = Except.ok r') :
    ∃ s0 s1 s2 s3 rest,
      jo.get_member "dmg_adj" = some (JsonValue.array (JsonValue.string s0 ::
        JsonValue.string s1 :: JsonValue.string s2 :: JsonValue.string s3 :: rest)) ∧
      r'._dmg_adj ⟨0, by decide⟩ = translate s0 ∧
      r'._dmg_adj ⟨1, by decide⟩ = translate s1 ∧
      r'._dmg_adj ⟨2, by decide⟩ = translate s2 ∧
      r'._dmg_adj ⟨3, by decide⟩ = translate s3 := by
  obtain ⟨jsarr, p0, p1, p2, p3, hget, h0, h1, h2, h3, hadj⟩ := (load_inv translate r r' jo h).dmg_adj_eq
  have e0 := next_string_ok _ _ h0
  have e1 := next_string_ok _ _ h1
  have e2 := next_string_ok _ _ h2
  have e3 := next_string_ok _ _ h3
  refine ⟨p0.1, p1.1, p2.1, p3.1, p3.2, ?_, ?_, ?_, ?_, ?_⟩
  · rw [← e3, ← e2, ← e1, ← e0]
    rw [e0] at hget
    rw [e0]
    exact get_array_cons jo "dmg_adj" _ _ hget
  all_goals
    rw [hadj]
    simp [Function.update, Fin.ext_iff]

/-- C1: for a valid input object, `load` on a record not loaded before returns a record
whose accessors `bash_resist`, `cut_resist`, `acid_resist`, `elec_resist`, `fire_resist`,
`chip_resist` and `density` give the integers under the keys of those names, and whose
`salvaged_into` and `repaired_with` are "null" and `edible` is false when the key is
absent. -/
theorem load_round_trip (translate : String → String) {N : Nat} (r : material_type N)
    (jo : JsonObject) (hfresh : r.was_loaded = false) (hvalid : valid_input N jo = true) :
    ∃ r', r.load translate jo = Except.ok r' ∧
      jo.get_member "bash_resist" = some (JsonValue.number r'.bash_resist) ∧
      jo.get_member "cut_resist" = some (JsonValue.number r'.cut_resist) ∧
      jo.get_member "acid_resist" = some (JsonValue.number r'.acid_resist) ∧
      jo.get_member "elec_resist" = some (JsonValue.number r'.elec_resist) ∧
      jo.get_member "fire_resist" = some (JsonValue.number r'.fire_resist) ∧
      jo.get_member "chip_resist" = some (JsonValue.number r'.chip_resist) ∧
      jo.get_member "density" = some (JsonValue.number r'.density) ∧
      (jo.get_member "salvaged_into" = none → r'.salvaged_into = "null") ∧
      (jo.get_member "repaired_with" = none → r'.repaired_with = "null") ∧
      (jo.get_member "edible" = none → r'.edible = false) := by
  obtain ⟨r', hr'⟩ := load_of_valid translate r jo hvalid
  have inv := load_inv translate r r' jo hr'
  have hb := inv.bash_eq
  have hc := inv.cut_eq
  have ha := inv.acid_eq
  have he := inv.elec_eq
  have hf := inv.fire_eq
  have hch := inv.chip_eq
  have hd := inv.density_eq
  have hs := inv.salvaged_eq
  have hr := inv.repaired_eq
  have hed := inv.edible_eq
  rw [hfresh] at hb hc ha he hf hch hd hs hr hed
  rw [mandatory_ok_iff] at hb hc ha he hf hch hd
  refine ⟨r', hr', read_int_member _ _ _ hb, read_int_member _ _ _ hc, read_int_member _ _ _ ha,
    read_int_member _ _ _ he, read_int_member _ _ _ hf, read_int_member _ _ _ hch,
    read_int_member _ _ _ hd, ?_, ?_, ?_⟩
  · intro habs
    unfold material_type.salvaged_into
    rw [hs]
    exact optional_default jo _ _ _ _ (read_string_absent jo _ habs)
  · intro habs
    unfold material_type.repaired_with
    rw [hr]
    exact optional_default jo _ _ _ _ (read_string_absent jo _ habs)
  · intro habs
    unfold material_type.edible
    rw [hed]
    exact optional_default jo _ _ _ _ (read_bool_absent jo _ habs)

/-- C1 for the sample definition loaded into a newly constructed record. -/
theorem load_round_trip_witness :
    (material_type.construct id 3).was_loaded = false ∧ valid_input 3 sample_object = true ∧
    ∃ r', (material_type.construct id 3).load id sample_object = Except.ok r' ∧
      sample_object.get_member "bash_resist" = some (JsonValue.number r'.bash_resist) ∧
      sample_object.get_member "cut_resist" = some (JsonValue.number r'.cut_resist) ∧
      sample_object.get_member "acid_resist" = some (JsonValue.number r'.acid_resist) ∧
      sample_object.get_member "elec_resist" = some (JsonValue.number r'.elec_resist) ∧
      sample_object.get_member "fire_resist" = some (JsonValue.number r'.fire_resist) ∧
      sample_object.get_member "chip_resist" = some (JsonValue.number r'.chip_resist) ∧
      sample_object.get_member "density" = some (JsonValue.number r'.density) ∧
      (sample_object.get_member "salvaged_into" = none → r'.salvaged_into = "null") ∧
      (sample_object.get_member "repaired_with" = none → r'.repaired_with = "null") ∧
      (sample_object.get_member "edible" = none → r'.edible = false) :=
  ⟨rfl, by decide, load_round_trip id (material_type.construct id 3) sample_object rfl
    (by decide)⟩

theorem mandatory_keys_present (translate : String → String) {N : Nat} (r r' : material_type N)
    (jo : JsonObject) (hfresh : r.was_loaded = false)
    (h : r.load translate jo = Except.ok r') :
    ∀ key ∈ mandatory_keys, jo.get_member key ≠ none := by
  have inv := load_inv translate r r' jo h
  have hn := inv.name_eq
  have hb := inv.bash_eq
  have hc := inv.cut_eq
  have ha := inv.acid_eq
  have he := inv.elec_eq
  have hf := inv.fire_eq
  have hch := inv.chip_eq
  have hd := inv.density_eq
  have hbv := inv.bash_verb_eq
  have hcv := inv.cut_verb_eq
  rw [hfresh] at hn hb hc ha he hf hch hd hbv hcv
  rw [mandatory_ok_iff] at hn hb hc ha he hf hch hd hbv hcv
  obtain ⟨s1, hs1, _⟩ := translated_reader_member _ _ _ _ hn
  obtain ⟨s2, hs2, _⟩ := translated_reader_member _ _ _ _ hbv
  obtain ⟨s3, hs3, _⟩ := translated_reader_member _ _ _ _ hcv
  have i1 := read_int_member _ _ _ hb
  have i2 := read_int_member _ _ _ hc
  have i3 := read_int_member _ _ _ ha
  have i4 := read_int_member _ _ _ he
  have i5 := read_int_member _ _ _ hf
  have i6 := read_int_member _ _ _ hch
  have i7 := read_int_member _ _ _ hd
  intro key hkey
  simp only [mandatory_keys, List.mem_cons, List.mem_singleton, List.not_mem_nil, or_false]
    at hkey
  rcases hkey with rfl | rfl | rfl | rfl | rfl | rfl | rfl | rfl | rfl | rfl <;> simp [*]

/-- C9: on a record not loaded before, `load` fails when a mandatory member (`name`, the six
resistances, `density`, the two verbs) is absent and when `dmg_adj` does not supply four
strings; it succeeds on every valid input object, and then the four adjective slots hold the
(localised) first four strings of `dmg_adj` in order. -/
theorem load_mandatory_members (translate : String → String) {N : Nat} (r : material_type N)
    (jo : JsonObject) (hfresh : r.was_loaded = false) :
    (∀ key ∈ mandatory_keys, jo.get_member key = none →
      ∃ e, r.load translate jo = Except.error e) ∧
    (valid_dmg_adj jo = false → ∃ e, r.load translate jo = Except.error e) ∧
    (∀ arr, jo.get_array "dmg_adj" = Except.ok arr → arr.length < 4 →
      ∃ e, r.load translate jo = Except.error e) ∧
    (valid_input N jo = true →
      ∃ r', r.load translate jo = Except.ok r' ∧
        ∃ s0 s1 s2 s3 rest,
          jo.get_member "dmg_adj" = some (JsonValue.array (JsonValue.string s0 ::
            JsonValue.string s1 :: JsonValue.string s2 :: JsonValue.string s3 :: rest)) ∧
          r'._dmg_adj ⟨0, by decide⟩ = translate s0 ∧
          r'._dmg_adj ⟨1, by decide⟩ = translate s1 ∧
          r'._dmg_adj ⟨2, by decide⟩ = translate s2 ∧
          r'._dmg_adj ⟨3, by decide⟩ = translate s3) := by
  have hadj : valid_dmg_adj jo = false → ∃ e, r.load translate jo = Except.error e := by
    intro hbad
    cases h : r.load translate jo with
    | error e => exact ⟨e, rfl⟩
    | ok r' =>
      exfalso
      obtain ⟨s0, s1, s2, s3, rest, hmem, _⟩ := load_inv_dmg_adj translate r r' jo h
      have : valid_dmg_adj jo = true := by
        unfold valid_dmg_adj
        rw [hmem]
      rw [hbad] at this
      exact absurd this (by decide)
  refine ⟨?_, hadj, ?_, ?_⟩
  · intro key hkey habs
    cases h : r.load translate jo with
    | error e => exact ⟨e, rfl⟩
    | ok r' => exact absurd habs (mandatory_keys_present translate r r' jo hfresh h key hkey)
  · intro arr harr hlen
    apply hadj
    cases hv : valid_dmg_adj jo with
    | false => rfl
    | true =>
      exfalso
      obtain ⟨s0, s1, s2, s3, rest, hmem⟩ := get_array_dmg_adj_of_valid jo hv
      rw [get_array_of_member jo _ _ hmem] at harr
      simp only [Except.ok.injEq] at harr
      subst harr
      simp only [List.length_cons] at hlen
      omega
  · intro hvalid
    obtain ⟨r', hr'⟩ := load_of_valid translate r jo hvalid
    exact ⟨r', hr', load_inv_dmg_adj translate r r' jo hr'⟩

/-- C9 on newly constructed records: the sample without `density` and the sample with three
adjectives fail to load, the sample itself loads and fills the four slots. -/
theorem load_mandatory_members_witness :
    (material_type.construct id 3).was_loaded = false ∧
    (∃ e, (material_type.construct id 3).load id sample_without_density = Except.error e) ∧
    (∃ e, (material_type.construct id 3).load id sample_three_adjectives = Except.error e) ∧
    (∃ r', (material_type.construct id 3).load id sample_object = Except.ok r' ∧
      ∃ s0 s1 s2 s3 rest,
        sample_object.get_member "dmg_adj" = some (JsonValue.array (JsonValue.string s0 ::
          JsonValue.string s1 :: JsonValue.string s2 :: JsonValue.string s3 :: rest)) ∧
        r'._dmg_adj ⟨0, by decide⟩ = id s0 ∧
        r'._dmg_adj ⟨1, by decide⟩ = id s1 ∧
        r'._dmg_adj ⟨2, by decide⟩ = id s2 ∧
        r'._dmg_adj ⟨3, by decide⟩ = id s3) :=
  ⟨rfl,
    (load_mandatory_members id (material_type.construct id 3) sample_without_density rfl).1
      "density" (by decide) rfl,
    (load_mandatory_members id (material_type.construct id 3) sample_three_adjectives
      rfl).2.2.1 _ rfl (by decide),
    (load_mandatory_members id (material_type.construct id 3) sample_object rfl).2.2.2
      (by decide)⟩

/-- The loop invariant of `load_burn_data` read off its result: levels below `intensity` are
untouched, a level with an element left in the array holds the parsed object, and a level
past the end of the array holds the synthesised default. -/
theorem load_burn_data_spec (N : Nat) (fr : Int) (n : Nat) :
    ∀ (intensity : Nat) (h : intensity + n = N) (arr : JsonArray)
      (bd bd' : Fin N → mat_burn_data),
      load_burn_data N fr n intensity h arr bd = Except.ok bd' →
      ∀ i : Fin N,
        (i.val < intensity → bd' i = bd i) ∧
        (intensity ≤ i.val → ∀ x, arr.get? (i.val - intensity) = some x →
          ∃ brn, x = JsonValue.object brn ∧ bd' i = load_mat_burn_data brn) ∧
        (intensity ≤ i.val → arr.length ≤ i.val - intensity →
          bd' i = { burn := if fr ≤ size_t_to_int i.val then 1 else 0 }) := by
  induction n with
  | zero =>
    intro intensity h arr bd bd' hok i
    simp only [load_burn_data, Except.ok.injEq] at hok
    subst hok
    have := i.isLt
    exact ⟨fun _ => rfl, fun hle => by omega, fun hle => by omega⟩
  | succ n ih =>
    intro intensity h arr bd bd' hok i
    have hi := i.isLt
    cases arr with
    | nil =>
      simp only [load_burn_data, JsonArray.has_more, List.isEmpty_nil, Bool.not_true,
        Bool.false_eq_true, if_false] at hok
      obtain ⟨ih1, _, ih3⟩ := ih (intensity + 1) (by omega) [] _ bd' hok i
      refine ⟨?_, ?_, ?_⟩
      · intro hlt
        rw [ih1 (by omega), Function.update_noteq]
        intro heq
        rw [heq] at hlt
        simp at hlt
      · intro _ x hx
        simp at hx
      · intro hle _
        by_cases heq : i.val = intensity
        · rw [ih1 (by omega)]
          have hi' : i = ⟨intensity, by omega⟩ := Fin.ext heq
          rw [hi', Function.update_same]
          by_cases hfl : fr ≤ size_t_to_int intensity <;> simp [hfl]
        · exact ih3 (by omega) (by simp)
    | cons x rest =>
      simp only [load_burn_data, JsonArray.has_more, List.isEmpty_cons, Bool.not_false,
        if_true, JsonArray.next_object, bind, Except.bind, Except.map] at hok
      cases x with
      | object brn =>
        simp only [JsonValue.get_object] at hok
        obtain ⟨ih1, ih2, ih3⟩ := ih (intensity + 1) (by omega) rest _ bd' hok i
        refine ⟨?_, ?_, ?_⟩
        · intro hlt
          rw [ih1 (by omega), Function.update_noteq]
          intro heq
          rw [heq] at hlt
          simp at hlt
        · intro hle y hy
          by_cases heq : i.val = intensity
          · rw [heq] at hy
            simp only [Nat.sub_self, List.get?_cons_zero, Option.some.injEq] at hy
            refine ⟨brn, hy.symm, ?_⟩
            rw [ih1 (by omega)]
            have hi' : i = ⟨intensity, by omega⟩ := Fin.ext heq
            rw [hi', Function.update_same]
          · have hsub : i.val - intensity = (i.val - (intensity + 1)) + 1 := by omega
            rw [hsub, List.get?_cons_succ] at hy
            exact ih2 (by omega) y hy
        · intro hle hlen
          simp only [List.length_cons] at hlen
          exact ih3 (by omega) (by omega)
      | null => simp [JsonValue.get_object] at hok
      | bool b => simp [JsonValue.get_object] at hok
      | number q => simp [JsonValue.get_object] at hok
      | string s => simp [JsonValue.get_object] at hok
      | array xs => simp [JsonValue.get_object] at hok

theorem size_t_to_int_small (n : Nat) (h : n < 2 ^ 31) : size_t_to_int n = (n : Int) := by
  unfold size_t_to_int
  omega

theorem load_burn_data_take (N : Nat) (fr : Int) (n : Nat) :
    ∀ (intensity : Nat) (h : intensity + n = N) (arr : JsonArray)
      (bd : Fin N → mat_burn_data),
      load_burn_data N fr n intensity h (arr.take n) bd =
        load_burn_data N fr n intensity h arr bd := by
  induction n with
  | zero =>
    intro intensity h arr bd
    simp [load_burn_data]
  | succ n ih =>
    intro intensity h arr bd
    cases arr with
    | nil => simp
    | cons x rest =>
      simp only [List.take_succ_cons, load_burn_data, JsonArray.has_more, List.isEmpty_cons,
        Bool.not_false, if_true, JsonArray.next_object, bind, Except.bind, Except.map]
      cases x <;> simp [JsonValue.get_object, ih]

/-- What `load_mat_burn_data` stores: each of `immune`, `chance`, `fuel`, `smoke` and `burn` that
the object carries with the type read, and the default-initialised value for the others. -/
theorem load_mat_burn_data_fields (brn : JsonObject) :
    load_mat_burn_data brn =
      { immune := (brn.read_bool "immune").getD false,
        chance_in_volume := (brn.read_int "chance").getD 0,
        fuel := (brn.read_int "fuel").getD 0,
        smoke := (brn.read_int "smoke").getD 0,
        burn := (brn.read_int "burn").getD 0 } := by
  unfold load_mat_burn_data assign JsonObject.read
  cases brn.read_bool "immune" <;> cases brn.read_int "chance" <;>
    cases brn.read_int "fuel" <;> cases brn.read_int "smoke" <;>
    cases brn.read_int "burn" <;> rfl

theorem read_int_of_member (jo : JsonObject) (name : String) (n : Int)
    (h : jo.get_member name = some (JsonValue.number n)) : jo.read_int name = some n := by
  unfold JsonObject.read_int
  rw [h]

theorem read_bool_of_member (jo : JsonObject) (name : String) (b : Bool)
    (h : jo.get_member name = some (JsonValue.bool b)) : jo.read_bool name = some b := by
  unfold JsonObject.read_bool
  rw [h]

/-- C4: after a load whose `burn_data` array is `supplied`, level `i` below
`MAX_FIELD_DENSITY` holds the `i`-th supplied object as `load_mat_burn_data` parses it when
there is one (the values under `immune`, `chance`, `fuel`, `smoke` and `burn`, a member that
is absent being false or zero), and otherwise the default descriptor, all zero and false
except `burn`, which is 1 when `fire_resist <= i` and 0 when `fire_resist > i`; elements of
the array from position `MAX_FIELD_DENSITY` on have no effect. The load of a valid input
object returns. -/
theorem load_burn_levels (translate : String → String) {N : Nat} (r : material_type N)
    (jo : JsonObject) (hN : N ≤ 2 ^ 31) :
    (valid_input N jo = true → ∃ r', r.load translate jo = Except.ok r') ∧
    (∀ r', r.load translate jo = Except.ok r' →
      ∃ supplied, jo.get_array "burn_data" = Except.ok supplied ∧
        (∀ i : Fin N,
          (∀ x, supplied.get? i.val = some x →
            ∃ brn : JsonObject, x = JsonValue.object brn ∧
              r'._burn_data i = load_mat_burn_data brn ∧
              r'._burn_data i =
                { immune := (brn.read_bool "immune").getD false,
                  chance_in_volume := (brn.read_int "chance").getD 0,
                  fuel := (brn.read_int "fuel").getD 0,
                  smoke := (brn.read_int "smoke").getD 0,
                  burn := (brn.read_int "burn").getD 0 } ∧
              (∀ b, brn.get_member "immune" = some (JsonValue.bool b) →
                (r'._burn_data i).immune = b) ∧
              (∀ n, brn.get_member "chance" = some (JsonValue.number n) →
                (r'._burn_data i).chance_in_volume = n) ∧
              (∀ n, brn.get_member "fuel" = some (JsonValue.number n) →
                (r'._burn_data i).fuel = n) ∧
              (∀ n, brn.get_member "smoke" = some (JsonValue.number n) →
                (r'._burn_data i).smoke = n) ∧
              (∀ n, brn.get_member "burn" = some (JsonValue.number n) →
                (r'._burn_data i).burn = n) ∧
              (brn.get_member "immune" = none → (r'._burn_data i).immune = false) ∧
              (brn.get_member "chance" = none → (r'._burn_data i).chance_in_volume = 0) ∧
              (brn.get_member "fuel" = none → (r'._burn_data i).fuel = 0) ∧
              (brn.get_member "smoke" = none → (r'._burn_data i).smoke = 0) ∧
              (brn.get_member "burn" = none → (r'._burn_data i).burn = 0)) ∧
          (supplied.length ≤ i.val →
            r'._burn_data i =
              { immune := false, chance_in_volume := 0, fuel := 0, smoke := 0,
                burn := if r'.fire_resist ≤ (i.val : Int) then 1 else 0 })) ∧
        (∀ other : JsonArray, other.take N = supplied.take N →
          load_burn_data N r'.fire_resist N 0 (Nat.zero_add N) other r._burn_data =
            Except.ok r'._burn_data)) := by
  refine ⟨load_of_valid translate r jo, ?_⟩
  intro r' hr'
  obtain ⟨supplied, hget, hloop⟩ := (load_inv translate r r' jo hr').burn_data_eq
  refine ⟨supplied, hget, ?_, ?_⟩
  · intro i
    obtain ⟨_, h2, h3⟩ :=
      load_burn_data_spec N r'._fire_resist N 0 (Nat.zero_add N) supplied r._burn_data
        r'._burn_data hloop i
    refine ⟨?_, ?_⟩
    · intro x hx
      obtain ⟨brn, hbrn, hstored⟩ := h2 (Nat.zero_le _) x (by simpa using hx)
      have hfields := load_mat_burn_data_fields brn
      refine ⟨brn, hbrn, hstored, hstored.trans hfields, ?_, ?_, ?_, ?_, ?_, ?_, ?_, ?_, ?_, ?_⟩
      · intro b hb
        rw [hstored, hfields, read_bool_of_member brn _ b hb]
        rfl
      · intro n hn
        rw [hstored, hfields, read_int_of_member brn "chance" n hn]
        rfl
      · intro n hn
        rw [hstored, hfields, read_int_of_member brn "fuel" n hn]
        rfl
      · intro n hn
        rw [hstored, hfields, read_int_of_member brn "smoke" n hn]
        rfl
      · intro n hn
        rw [hstored, hfields, read_int_of_member brn "burn" n hn]
        rfl
      · intro habs
        rw [hstored, hfields, read_bool_absent brn _ habs]
        rfl
      · intro habs
        rw [hstored, hfields, read_int_absent brn "chance" habs]
        rfl
      · intro habs
        rw [hstored, hfields, read_int_absent brn "fuel" habs]
        rfl
      · intro habs
        rw [hstored, hfields, read_int_absent brn "smoke" habs]
        rfl
      · intro habs
        rw [hstored, hfields, read_int_absent brn "burn" habs]
        rfl
    · intro hlen
      have := h3 (Nat.zero_le _) (by simpa using hlen)
      rw [this, size_t_to_int_small i.val (by have := i.isLt; omega)]
      rfl
  · intro other hother
    unfold material_type.fire_resist
    rw [← load_burn_data_take, hother, load_burn_data_take]
    exact hloop

/-- C4 for the sample definition, whose `burn_data` supplies one descriptor, with three levels:
level 0 holds the supplied `fuel`, `smoke` and `burn` of 1, level 1 (below the fire resistance
of 2) the default with `burn = 0`, level 2 the default with `burn = 1`. -/
theorem load_burn_levels_witness :
    (3 : Nat) ≤ 2 ^ 31 ∧
    valid_input 3 sample_burning_object = true ∧
    (∃ r', (material_type.construct id 3).load id sample_burning_object = Except.ok r' ∧
      r'._burn_data ⟨0, by decide⟩ =
        { immune := false, chance_in_volume := 0, fuel := 1, smoke := 1, burn := 1 } ∧
      r'._burn_data ⟨1, by decide⟩ =
        { immune := false, chance_in_volume := 0, fuel := 0, smoke := 0, burn := 0 } ∧
      r'._burn_data ⟨2, by decide⟩ =
        { immune := false, chance_in_volume := 0, fuel := 0, smoke := 0, burn := 1 }) ∧
    (∀ r', (material_type.construct id 3).load id sample_burning_object = Except.ok r' →
      ∃ supplied, sample_burning_object.get_array "burn_data" = Except.ok supplied ∧
        (∀ i : Fin 3,
          (∀ x, supplied.get? i.val = some x →
            ∃ brn : JsonObject, x = JsonValue.object brn ∧
              r'._burn_data i = load_mat_burn_data brn ∧
              r'._burn_data i =
                { immune := (brn.read_bool "immune").getD false,
                  chance_in_volume := (brn.read_int "chance").getD 0,
                  fuel := (brn.read_int "fuel").getD 0,
                  smoke := (brn.read_int "smoke").getD 0,
                  burn := (brn.read_int "burn").getD 0 } ∧
              (∀ b, brn.get_member "immune" = some (JsonValue.bool b) →
                (r'._burn_data i).immune = b) ∧
              (∀ n, brn.get_member "chance" = some (JsonValue.number n) →
                (r'._burn_data i).chance_in_volume = n) ∧
              (∀ n, brn.get_member "fuel" = some (JsonValue.number n) →
                (r'._burn_data i).fuel = n) ∧
              (∀ n, brn.get_member "smoke" = some (JsonValue.number n) →
                (r'._burn_data i).smoke = n) ∧
              (∀ n, brn.get_member "burn" = some (JsonValue.number n) →
                (r'._burn_data i).burn = n) ∧
              (brn.get_member "immune" = none → (r'._burn_data i).immune = false) ∧
              (brn.get_member "chance" = none → (r'._burn_data i).chance_in_volume = 0) ∧
              (brn.get_member "fuel" = none → (r'._burn_data i).fuel = 0) ∧
              (brn.get_member "smoke" = none → (r'._burn_data i).smoke = 0) ∧
              (brn.get_member "burn" = none → (r'._burn_data i).burn = 0)) ∧
          (supplied.length ≤ i.val →
            r'._burn_data i =
              { immune := false, chance_in_volume := 0, fuel := 0, smoke := 0,
                burn := if r'.fire_resist ≤ (i.val : Int) then 1 else 0 })) ∧
        (∀ other : JsonArray, other.take 3 = supplied.take 3 →
          load_burn_data 3 r'.fire_resist 3 0 (Nat.zero_add 3) other
            (material_type.construct id 3)._burn_data = Except.ok r'._burn_data)) := by
  have hmain := load_burn_levels id (material_type.construct id 3) sample_burning_object
    (by decide)
  refine ⟨by decide, by decide, ?_, hmain.2⟩
  obtain ⟨r', hr'⟩ := hmain.1 (by decide)
  obtain ⟨supplied, hget, hlevels, _⟩ := hmain.2 r' hr'
  have hsup : supplied = [JsonValue.object [("fuel", JsonValue.number 1),
      ("smoke", JsonValue.number 1), ("burn", JsonValue.number 1)]] := by
    have h0 : sample_burning_object.get_array "burn_data" =
        Except.ok [JsonValue.object [("fuel", JsonValue.number 1),
          ("smoke", JsonValue.number 1), ("burn", JsonValue.number 1)]] := rfl
    rw [h0] at hget
    exact (Except.ok.inj hget).symm
  subst hsup
  have hfr : r'.fire_resist = 2 := by
    have hf := (load_inv id _ r' _ hr').fire_eq
    have hread : JsonObject.read_int sample_burning_object "fire_resist" = some 2 := rfl
    rw [mandatory_of_read _ _ "fire_resist" _ 2 _ hread] at hf
    exact (Except.ok.inj hf).symm
  refine ⟨r', hr', ?_, ?_, ?_⟩
  · obtain ⟨brn, hbrn, _, hfields, _⟩ := (hlevels ⟨0, by decide⟩).1 _ rfl
    simp only [JsonValue.object.injEq] at hbrn
    subst hbrn
    rw [hfields]
    rfl
  · have h := (hlevels ⟨1, by decide⟩).2 (by decide)
    rw [h, hfr]
    rfl
  · have h := (hlevels ⟨2, by decide⟩).2 (by decide)
    rw [h, hfr]
    rfl


/-- C5 (as stated): the sample definition has `fire_resist = 2` and no `burn_data`; with three
levels its loaded record has `burn = 0`, not 1, at level indices 0 and 1 and `burn = 1`,
not 0, at level index 2. -/
theorem burn_default_fire_resist_two_refuted :
    ∃ r', (material_type.construct id 3).load id sample_object = Except.ok r' ∧
      r'.fire_resist = 2 ∧
      sample_object.get_array "burn_data" = Except.ok [] ∧
      (r'._burn_data ⟨0, by decide⟩).burn = 0 ∧ (r'._burn_data ⟨0, by decide⟩).burn ≠ 1 ∧
      (r'._burn_data ⟨1, by decide⟩).burn = 0 ∧ (r'._burn_data ⟨1, by decide⟩).burn ≠ 1 ∧
      (r'._burn_data ⟨2, by decide⟩).burn = 1 ∧ (r'._burn_data ⟨2, by decide⟩).burn ≠ 0 := by
  exact ⟨_, rfl, rfl, rfl, rfl, by decide, rfl, by decide, rfl, by decide⟩

/-- C5 (amended): for a material loaded with `fire_resist = 2`, every level that the
`burn_data` array does not supply gets the default descriptor with `burn = 0` at level
indices 0 and 1 and `burn = 1` at level index 2 and above. The load of a valid input object
returns. -/
theorem burn_default_fire_resist_two (translate : String → String) {N : Nat}
    (r : material_type N) (jo : JsonObject) (hN : N ≤ 2 ^ 31)
    (hfire : jo.get_member "fire_resist" = some (JsonValue.number 2)) :
    (valid_input N jo = true → ∃ r', r.load translate jo = Except.ok r') ∧
    (∀ r', r.load translate jo = Except.ok r' →
      r'.fire_resist = 2 ∧
      ∃ supplied, jo.get_array "burn_data" = Except.ok supplied ∧
        ∀ i : Fin N, supplied.length ≤ i.val →
          r'._burn_data i =
            { immune := false, chance_in_volume := 0, fuel := 0, smoke := 0,
              burn := if i.val < 2 then 0 else 1 }) := by
  refine ⟨load_of_valid translate r jo, ?_⟩
  intro r' hr'
  have hf := (load_inv translate r r' jo hr').fire_eq
  have hread : jo.read_int "fire_resist" = some 2 := by
    unfold JsonObject.read_int
    rw [hfire]
  rw [mandatory_of_read jo r.was_loaded "fire_resist" r._fire_resist 2 _ hread] at hf
  simp only [Except.ok.injEq] at hf
  have hfr : r'.fire_resist = 2 := hf.symm
  refine ⟨hfr, ?_⟩
  obtain ⟨supplied, hget, hloop⟩ := (load_inv translate r r' jo hr').burn_data_eq
  refine ⟨supplied, hget, ?_⟩
  intro i hlen
  obtain ⟨_, _, h3⟩ :=
    load_burn_data_spec N r'._fire_resist N 0 (Nat.zero_add N) supplied r._burn_data
      r'._burn_data hloop i
  have := h3 (Nat.zero_le _) (by simpa using hlen)
  rw [this, size_t_to_int_small i.val (by have := i.isLt; omega)]
  have hfr' : r'._fire_resist = 2 := hfr
  rw [hfr']
  by_cases hlt : i.val < 2
  · have : ¬ ((2 : Int) ≤ (i.val : Int)) := by omega
    simp [hlt, this]
  · have : (2 : Int) ≤ (i.val : Int) := by omega
    simp [hlt, this]

/-- C5 (amended) for the sample definition, which has no `burn_data`, with three levels. -/
theorem burn_default_fire_resist_two_witness :
    (3 : Nat) ≤ 2 ^ 31 ∧
    sample_object.get_member "fire_resist" = some (JsonValue.number 2) ∧
    ((valid_input 3 sample_object = true →
      ∃ r', (material_type.construct id 3).load id sample_object = Except.ok r') ∧
    (∀ r', (material_type.construct id 3).load id sample_object = Except.ok r' →
      r'.fire_resist = 2 ∧
      ∃ supplied, sample_object.get_array "burn_data" = Except.ok supplied ∧
        ∀ i : Fin 3, supplied.length ≤ i.val →
          r'._burn_data i =
            { immune := false, chance_in_volume := 0, fuel := 0, smoke := 0,
              burn := if i.val < 2 then 0 else 1 })) :=
  ⟨by decide, rfl, burn_default_fire_resist_two id (material_type.construct id 3) sample_object
    (by decide) rfl⟩

/-! ## The vitamins mapping -/

theorem lookup_isSome_iff_mem_keys (m : List (String × Int)) (v : String) :
    (∃ q, m.lookup v = some q) ↔ v ∈ m.map Prod.fst := by
  induction m with
  | nil => simp
  | cons p rest ih =>
    obtain ⟨k, x⟩ := p
    simp only [List.lookup_cons, List.map_cons, List.mem_cons]
    by_cases hvk : v = k
    · subst hvk
      simp
    · have : (v == k) = false := by simpa using hvk
      rw [this]
      simp only [hvk, false_or]
      exact ih

theorem lookup_none_iff_not_mem_keys (m : List (String × Int)) (v : String) :
    m.lookup v = none ↔ v ∉ m.map Prod.fst := by
  rw [← lookup_isSome_iff_mem_keys]
  cases m.lookup v <;> simp

theorem emplace_lookup_of_some (m : List (String × Int)) (k : String) (q : Int) (v : String)
    (x : Int) (h : m.lookup v = some x) : (emplace m k q).lookup v = some x := by
  unfold emplace
  cases hk : m.lookup k with
  | some y => exact h
  | none => simp [List.lookup_append, h]

theorem emplace_lookup_self (m : List (String × Int)) (k : String) (q : Int)
    (h : m.lookup k = none) : (emplace m k q).lookup k = some q := by
  unfold emplace
  rw [h]
  simp [List.lookup_append, h, List.lookup_cons]

theorem emplace_lookup_of_ne (m : List (String × Int)) (k : String) (q : Int) (v : String)
    (hne : v ≠ k) : (emplace m k q).lookup v = m.lookup v := by
  unfold emplace
  cases hk : m.lookup k with
  | some y => rfl
  | none =>
    have : (v == k) = false := by simpa using hne
    simp [List.lookup_append, List.lookup_cons, this]

theorem emplace_keys (m : List (String × Int)) (k : String) (q : Int) (v : String) :
    v ∈ (emplace m k q).map Prod.fst ↔ v ∈ m.map Prod.fst ∨ v = k := by
  unfold emplace
  cases hk : m.lookup k with
  | some y =>
    have hmem : k ∈ m.map Prod.fst := (lookup_isSome_iff_mem_keys m k).mp ⟨y, hk⟩
    constructor
    · intro h
      exact Or.inl h
    · rintro (h | rfl)
      · exact h
      · exact hmem
  | none => simp

theorem emplace_nodup (m : List (String × Int)) (k : String) (q : Int)
    (h : (m.map Prod.fst).Nodup) : ((emplace m k q).map Prod.fst).Nodup := by
  unfold emplace
  cases hk : m.lookup k with
  | some y => exact h
  | none =>
    have hnot : k ∉ m.map Prod.fst := (lookup_none_iff_not_mem_keys m k).mp hk
    simp only [List.map_append, List.map_cons, List.map_nil]
    rw [List.nodup_append]
    refine ⟨h, List.nodup_singleton k, ?_⟩
    intro a ha hb
    simp only [List.mem_singleton] at hb
    subst hb
    exact hnot ha

/-- The `vitamins` loop read off its result: an entry the mapping had is kept, an identifier
without an entry takes the quantity of the first pair that names it, and the keys stay
distinct and are those the mapping had together with the identifiers of the array. -/
theorem load_vitamins_spec (arr : JsonArray) :
    ∀ (m m' : List (String × Int)), load_vitamins arr m = Except.ok m' →
      (∀ v q, m.lookup v = some q → m'.lookup v = some q) ∧
      (∀ i pair v q, arr.get? i = some (JsonValue.array pair) →
        JsonArray.get_string pair 0 = Except.ok v → JsonArray.get_float pair 1 = Except.ok q →
        (∀ j, j < i → ∀ pj, arr.get? j = some (JsonValue.array pj) →
          JsonArray.get_string pj 0 ≠ Except.ok v) →
        m.lookup v = none → m'.lookup v = some q) ∧
      ((m.map Prod.fst).Nodup → (m'.map Prod.fst).Nodup) ∧
      (∀ v, v ∈ m'.map Prod.fst ↔
        (v ∈ m.map Prod.fst ∨
          ∃ i pair, arr.get? i = some (JsonValue.array pair) ∧
            JsonArray.get_string pair 0 = Except.ok v)) := by
  induction arr with
  | nil =>
    intro m m' h
    simp only [load_vitamins, Except.ok.injEq] at h
    subst h
    refine ⟨fun _ _ h => h, ?_, fun h => h, ?_⟩
    · intro i pair v q hi
      simp at hi
    · intro v
      simp
  | cons x rest ih =>
    intro m m' h
    simp only [load_vitamins, bind, Except.bind] at h
    split at h
    · exact absurd h (by simp)
    rename_i next0 hx
    split at h
    · exact absurd h (by simp)
    rename_i k0 hk0
    split at h
    · exact absurd h (by simp)
    rename_i q0 hq0
    obtain ⟨pair0, hx', hnext⟩ : ∃ pair0, x = JsonValue.array pair0 ∧ next0.1 = pair0 := by
      cases x <;> simp [JsonArray.next_array, JsonValue.get_array, Except.map] at hx
      exact ⟨_, rfl, by rw [← hx]⟩
    subst hx'
    rw [hnext] at hk0 hq0
    obtain ⟨iha, ihb, ihc, ihd⟩ := ih (emplace m k0 q0) m' h
    refine ⟨?_, ?_, ?_, ?_⟩
    · intro v q hv
      exact iha v q (emplace_lookup_of_some m k0 q0 v q hv)
    · intro i pair v q hi hs hf hfirst hnone
      cases i with
      | zero =>
        simp only [List.get?_cons_zero, Option.some.injEq, JsonValue.array.injEq] at hi
        subst hi
        rw [hk0] at hs
        rw [hq0] at hf
        simp only [Except.ok.injEq] at hs hf
        subst hs
        subst hf
        exact iha _ _ (emplace_lookup_self m k0 q0 hnone)
      | succ i =>
        simp only [List.get?_cons_succ] at hi
        have hne : v ≠ k0 := by
          intro heq
          apply hfirst 0 (Nat.succ_pos i) pair0 (by simp)
          rw [hk0, heq]
        apply ihb i pair v q hi hs hf
        · intro j hj pj hpj
          exact hfirst (j + 1) (by omega) pj (by simpa using hpj)
        · rw [emplace_lookup_of_ne m k0 q0 v hne]
          exact hnone
    · intro hnd
      exact ihc (emplace_nodup m k0 q0 hnd)
    · intro v
      rw [ihd v, emplace_keys]
      constructor
      · rintro ((hm | hk) | ⟨i, pair, hi, hs⟩)
        · exact Or.inl hm
        · exact Or.inr ⟨0, pair0, by simp, by rw [hk0, hk]⟩
        · exact Or.inr ⟨i + 1, pair, by simpa using hi, hs⟩
      · rintro (hm | ⟨i, pair, hi, hs⟩)
        · exact Or.inl (Or.inl hm)
        · cases i with
          | zero =>
            simp only [List.get?_cons_zero, Option.some.injEq, JsonValue.array.injEq] at hi
            subst hi
            rw [hk0] at hs
            simp only [Except.ok.injEq] at hs
            exact Or.inl (Or.inr hs.symm)
          | succ i =>
            exact Or.inr ⟨i, pair, by simpa using hi, hs⟩

/-- C6 (as stated): the sample definition lists `calcium` with quantity 1 and, later, with
quantity 2; the loaded mapping holds 1 for it, the quantity of the first pair, not the 2 of
the last pair. -/
theorem load_vitamins_last_wins_refuted :
    ∃ r', (material_type.construct id 3).load id sample_burning_object = Except.ok r' ∧
      sample_burning_object.get_array "vitamins" = Except.ok [
        JsonValue.array [JsonValue.string "calcium", JsonValue.number 1],
        JsonValue.array [JsonValue.string "iron", JsonValue.number 5],
        JsonValue.array [JsonValue.string "calcium", JsonValue.number 2]] ∧
      r'._vitamins.lookup "calcium" = some 1 ∧
      r'._vitamins.lookup "calcium" ≠ some 2 ∧
      r'._vitamins = [("calcium", 1), ("iron", 5)] :=
  ⟨_, rfl, rfl, by decide, by decide, by decide⟩

/-- C6 (amended): after a load, an identifier for which the record held no entry has the
quantity of the first pair of the `vitamins` array that names it (a later pair with the same
identifier does not overwrite it, and neither does any pair overwrite an entry the record
held), and the mapping has one entry per distinct identifier: the keys are distinct and are
those held before together with the identifiers of the array. The load of a valid input
object returns. -/
theorem load_vitamins_first_wins (translate : String → String) {N : Nat} (r : material_type N)
    (jo : JsonObject) (hkeys : (r._vitamins.map Prod.fst).Nodup) :
    (valid_input N jo = true → ∃ r', r.load translate jo = Except.ok r') ∧
    (∀ r', r.load translate jo = Except.ok r' →
      ∃ arr, jo.get_array "vitamins" = Except.ok arr ∧
        (∀ i pair v q, arr.get? i = some (JsonValue.array pair) →
          JsonArray.get_string pair 0 = Except.ok v →
          JsonArray.get_float pair 1 = Except.ok q →
          (∀ j, j < i → ∀ pj, arr.get? j = some (JsonValue.array pj) →
            JsonArray.get_string pj 0 ≠ Except.ok v) →
          r._vitamins.lookup v = none → r'._vitamins.lookup v = some q) ∧
        (∀ v q, r._vitamins.lookup v = some q → r'._vitamins.lookup v = some q) ∧
        (r'._vitamins.map Prod.fst).Nodup ∧
        (∀ v, v ∈ r'._vitamins.map Prod.fst ↔
          (v ∈ r._vitamins.map Prod.fst ∨
            ∃ i pair, arr.get? i = some (JsonValue.array pair) ∧
              JsonArray.get_string pair 0 = Except.ok v))) := by
  refine ⟨load_of_valid translate r jo, ?_⟩
  intro r' hr'
  obtain ⟨arr, hget, hloop⟩ := (load_inv translate r r' jo hr').vitamins_eq
  obtain ⟨ha, hb, hc, hd⟩ := load_vitamins_spec arr r._vitamins r'._vitamins hloop
  exact ⟨arr, hget, hb, ha, hc hkeys, hd⟩

/-- C6 (amended) for the sample definition that lists `calcium` twice. -/
theorem load_vitamins_first_wins_witness :
    ((material_type.construct id 3)._vitamins.map Prod.fst).Nodup ∧
    ((valid_input 3 sample_burning_object = true →
      ∃ r', (material_type.construct id 3).load id sample_burning_object = Except.ok r') ∧
    (∀ r', (material_type.construct id 3).load id sample_burning_object = Except.ok r' →
      ∃ arr, sample_burning_object.get_array "vitamins" = Except.ok arr ∧
        (∀ i pair v q, arr.get? i = some (JsonValue.array pair) →
          JsonArray.get_string pair 0 = Except.ok v →
          JsonArray.get_float pair 1 = Except.ok q →
          (∀ j, j < i → ∀ pj, arr.get? j = some (JsonValue.array pj) →
            JsonArray.get_string pj 0 ≠ Except.ok v) →
          (material_type.construct id 3)._vitamins.lookup v = none →
          r'._vitamins.lookup v = some q) ∧
        (∀ v q, (material_type.construct id 3)._vitamins.lookup v = some q →
          r'._vitamins.lookup v = some q) ∧
        (r'._vitamins.map Prod.fst).Nodup ∧
        (∀ v, v ∈ r'._vitamins.map Prod.fst ↔
          (v ∈ (material_type.construct id 3)._vitamins.map Prod.fst ∨
            ∃ i pair, arr.get? i = some (JsonValue.array pair) ∧
              JsonArray.get_string pair 0 = Except.ok v)))) :=
  ⟨List.nodup_nil, load_vitamins_first_wins id (material_type.construct id 3)
    sample_burning_object List.nodup_nil⟩

end Material
